import Mathlib

/-!
Verification model of the GPS gateway protocol engine (`src/index.js`).

Protocol text is modelled as `List Char`, one `Char` per transport byte
(the traffic is ASCII; hex-decoded bytes are mapped to the character with
the same code point, which keeps the positions of the markers `[`, `]`
and the separator `*` exactly as in the source).

The model covers, faithfully to the source:
  * the hex-wrapper detection applied to each received chunk
    (`hexTransform`, lines 66-84 of `index.js`);
  * the bracket-framing loop over the per-connection buffer
    (`extractLoop`, lines 91-102 / 190-191);
  * the `*`-split message parser (`parseMessage`, lines 106-111);
  * the command dispatch with its reply branches and side effects
    (`replyList`, `dispatch`, lines 113-188);
  * the per-connection state machine (`onChunk`, `runConn`, `onClose`,
    lines 54-56 and 195-218);
  * the session registry as a map from IMEI to socket handle
    (`applyEvent`, mirroring `socketsByImei`);
  * the outbound frame construction (`buildLenField`, `encodeFrame`,
    `changeServerCmd`, `tsCmd`, `crCmd`, lines 27-30, 315-318, 341, 364).
-/

namespace GpsV3

/-! ### Characters: JS whitespace and hex digits -/

/-- The characters matched by the JavaScript regex class `\s`
(used by `asciiData.replace(/[\s\n\r]/g, '')` on line 72/75). -/
def isJsSpace (c : Char) : Bool :=
  c.toNat = 0x20 || c.toNat = 0x09 || c.toNat = 0x0a || c.toNat = 0x0b ||
  c.toNat = 0x0c || c.toNat = 0x0d || c.toNat = 0xa0 || c.toNat = 0x1680 ||
  (0x2000 ≤ c.toNat && c.toNat ≤ 0x200a) || c.toNat = 0x2028 ||
  c.toNat = 0x2029 || c.toNat = 0x202f || c.toNat = 0x205f ||
  c.toNat = 0x3000 || c.toNat = 0xfeff

/-- The characters matched by `[0-9A-Fa-f]` (the hex alternatives of the
regex `/^[0-9A-Fa-f\s]+$/` on line 71; the `\s` alternative is irrelevant
because the tested string has already been stripped of whitespace). -/
def isHexDigit (c : Char) : Bool :=
  ('0' ≤ c && c ≤ '9') || ('A' ≤ c && c ≤ 'F') || ('a' ≤ c && c ≤ 'f')

/-- Numeric value of a hex digit. -/
def hexVal (c : Char) : Nat :=
  if '0' ≤ c && c ≤ '9' then c.toNat - '0'.toNat
  else if 'A' ≤ c && c ≤ 'F' then c.toNat - 'A'.toNat + 10
  else c.toNat - 'a'.toNat + 10

/-- `Buffer.from(hexString, 'hex')` (line 76): consume hex digits two at a
time, each pair becoming one byte. -/
def decodeHex : List Char → List Char
  | hi :: lo :: rest => Char.ofNat (16 * hexVal hi + hexVal lo) :: decodeHex rest
  | _ => []

/-- `asciiData.replace(/[\s\n\r]/g, '')` (lines 72, 75). -/
def stripWs (l : List Char) : List Char := l.filter (fun c => !(isJsSpace c))

/-- The guard on line 72: the whitespace-stripped chunk is a nonempty
run of hex digits of even length. -/
def isHexChunk (l : List Char) : Bool :=
  !(stripWs l).isEmpty && (stripWs l).all isHexDigit &&
    (stripWs l).length % 2 == 0

/-- Lines 66-84: if the chunk looks hex-encoded and its decoding contains
both markers, process the decoding instead of the raw chunk. -/
def hexTransform (chunk : List Char) : List Char :=
  if isHexChunk chunk then
    if (decodeHex (stripWs chunk)).contains '[' &&
        (decodeHex (stripWs chunk)).contains ']' then
      decodeHex (stripWs chunk)
    else chunk
  else chunk

/-! ### The framing loop -/

/-- `String.prototype.indexOf` of a single character: index of the first
occurrence, if any. -/
def firstIdx (c : Char) : List Char → Option Nat
  | [] => none
  | x :: xs => if x = c then some 0 else (firstIdx c xs).map (· + 1)

theorem firstIdx_lt_length {c : Char} :
    ∀ {l : List Char} {i : Nat}, firstIdx c l = some i → i < l.length := by
  intro l
  induction l with
  | nil => intro i h; simp [firstIdx] at h
  | cons x xs ih =>
    intro i h
    by_cases hx : x = c
    · simp only [firstIdx, if_pos hx, Option.some.injEq] at h
      simp [← h]
    · simp only [firstIdx, if_neg hx, Option.map_eq_some'] at h
      obtain ⟨j, hj, hji⟩ := h
      have := ih hj
      simp only [List.length_cons]
      omega

theorem firstIdx_append_left {c : Char} :
    ∀ {l : List Char} {i : Nat} (t : List Char),
      firstIdx c l = some i → firstIdx c (l ++ t) = some i := by
  intro l
  induction l with
  | nil => intro i t h; simp [firstIdx] at h
  | cons x xs ih =>
    intro i t h
    by_cases hx : x = c
    · simp only [firstIdx, if_pos hx, Option.some.injEq] at h
      simp [firstIdx, if_pos hx, h]
    · simp only [firstIdx, if_neg hx, Option.map_eq_some'] at h ⊢
      obtain ⟨j, hj, hji⟩ := h
      exact ⟨j, ih t hj, hji⟩

/-- One round plus the rest of the `while` loop of lines 100-192, with a
fuel argument that makes the recursion structural (the loop consumes at
least one buffered character per round, so `buf.length` rounds always
suffice; see `extractGo_fuel`). -/
def extractGo : Nat → List Char → List (List Char) × List Char
  | 0, buf => ([], buf)
  | fuel + 1, buf =>
    match firstIdx '[' buf, firstIdx ']' buf with
    | some s, some e =>
      if s < e then
        let r := extractGo fuel (buf.drop (e + 1))
        ((buf.drop (s + 1)).take (e - s - 1) :: r.1, r.2)
      else ([], buf)
    | some _, none => ([], buf)
    | none, _ => ([], buf)

/-- The `while` loop of lines 100-192, restricted to its buffer effect:
find the first `[` and the first `]`; while both exist and the `]` comes
after the `[`, emit the span strictly between them as a frame and drop
everything up to and including that `]`. -/
def extractLoop (buf : List Char) : List (List Char) × List Char :=
  extractGo buf.length buf

theorem extractGo_fuel :
    ∀ (f1 f2 : Nat) (buf : List Char), buf.length ≤ f1 →
      buf.length ≤ f2 → extractGo f1 buf = extractGo f2 buf := by
  intro f1
  induction f1 with
  | zero =>
    intro f2 buf h1 _
    have : buf = [] := List.length_eq_zero.mp (Nat.le_zero.mp h1)
    subst this
    cases f2 with
    | zero => rfl
    | succ k => simp [extractGo, firstIdx]
  | succ n ih =>
    intro f2 buf h1 h2
    cases f2 with
    | zero =>
      have : buf = [] := List.length_eq_zero.mp (Nat.le_zero.mp h2)
      subst this
      simp [extractGo, firstIdx]
    | succ k =>
      simp only [extractGo]
      cases hs : firstIdx '[' buf with
      | none => rfl
      | some s =>
        cases he : firstIdx ']' buf with
        | none => rfl
        | some e =>
          by_cases hse : s < e
          · have hlt := firstIdx_lt_length he
            have hdrop : (buf.drop (e + 1)).length = buf.length - (e + 1) :=
              List.length_drop _ _
            have hd1 : (buf.drop (e + 1)).length ≤ n := by omega
            have hd2 : (buf.drop (e + 1)).length ≤ k := by omega
            have hrec := ih k (buf.drop (e + 1)) hd1 hd2
            simp [hse, hrec]
          · simp [hse]

theorem extractLoop_step {buf : List Char} {s e : Nat}
    (h1 : firstIdx '[' buf = some s) (h2 : firstIdx ']' buf = some e)
    (hse : s < e) :
    extractLoop buf =
      ((buf.drop (s + 1)).take (e - s - 1) :: (extractLoop (buf.drop (e + 1))).1,
        (extractLoop (buf.drop (e + 1))).2) := by
  have hlt := firstIdx_lt_length h2
  have hpos : 0 < buf.length := by omega
  unfold extractLoop
  cases hb : buf.length with
  | zero => omega
  | succ n =>
    simp only [extractGo, h1, h2, if_pos hse]
    have hdrop : (buf.drop (e + 1)).length = buf.length - (e + 1) :=
      List.length_drop _ _
    rw [extractGo_fuel n ((buf.drop (e + 1)).length) (buf.drop (e + 1))
      (by omega) (by omega)]

theorem extractLoop_stop {buf : List Char}
    (h : ∀ s e, firstIdx '[' buf = some s → firstIdx ']' buf = some e → e ≤ s) :
    extractLoop buf = ([], buf) := by
  unfold extractLoop
  cases hb : buf.length with
  | zero => rfl
  | succ n =>
    simp only [extractGo]
    cases hs : firstIdx '[' buf with
    | none => rfl
    | some s =>
      cases he : firstIdx ']' buf with
      | none => rfl
      | some e =>
        have := h s e hs he
        simp [show ¬ s < e by omega]

theorem extract_assoc_aux :
    ∀ (n : Nat) (u v : List Char), u.length ≤ n →
      extractLoop (u ++ v) =
        ((extractLoop u).1 ++ (extractLoop ((extractLoop u).2 ++ v)).1,
          (extractLoop ((extractLoop u).2 ++ v)).2) := by
  intro n
  induction n with
  | zero =>
    intro u v hu
    have : u = [] := List.length_eq_zero.mp (Nat.le_zero.mp hu)
    subst this
    have hstop : extractLoop ([] : List Char) = ([], []) := rfl
    simp [hstop]
  | succ n ih =>
    intro u v hu
    cases hs : firstIdx '[' u with
    | none =>
      have hstop : extractLoop u = ([], u) :=
        extractLoop_stop (fun s e h1 _ => by rw [hs] at h1; cases h1)
      simp [hstop]
    | some s =>
      cases he : firstIdx ']' u with
      | none =>
        have hstop : extractLoop u = ([], u) :=
          extractLoop_stop (fun s' e h1 h2 => by rw [he] at h2; cases h2)
        simp [hstop]
      | some e =>
        by_cases hse : s < e
        · -- one frame is extracted from `u`; recurse on the remainder
          have hlt := firstIdx_lt_length he
          have hs' := firstIdx_append_left v hs
          have he' := firstIdx_append_left v he
          have hstep := extractLoop_step hs he hse
          have hstep' := extractLoop_step hs' he' hse
          have hdropuv : (u ++ v).drop (e + 1) = u.drop (e + 1) ++ v :=
            List.drop_append_of_le_length (by omega)
          have hdropsv : (u ++ v).drop (s + 1) = u.drop (s + 1) ++ v :=
            List.drop_append_of_le_length (by omega)
          have htake : ((u.drop (s + 1)) ++ v).take (e - s - 1) =
              (u.drop (s + 1)).take (e - s - 1) :=
            List.take_append_of_le_length (by simp; omega)
          have hlen : (u.drop (e + 1)).length ≤ n := by simp; omega
          have hrec := ih (u.drop (e + 1)) v hlen
          rw [hstep', hdropuv, hdropsv, htake, hrec, hstep]
          simp
        · have hstop : extractLoop u = ([], u) :=
            extractLoop_stop (fun s' e' h1 h2 => by
              rw [hs] at h1; rw [he] at h2; cases h1; cases h2; omega)
          simp [hstop]

/-- Frame extraction is insensitive to where the input is cut: running the
loop on `u`, then running it again with `v` appended to the leftover
buffer, extracts the same frames in the same order as running it on
`u ++ v` at once. -/
theorem extract_assoc (u v : List Char) :
    extractLoop (u ++ v) =
      ((extractLoop u).1 ++ (extractLoop ((extractLoop u).2 ++ v)).1,
        (extractLoop ((extractLoop u).2 ++ v)).2) :=
  extract_assoc_aux u.length u v (Nat.le_refl _)

/-! ### Per-connection decoder state -/

/-- The decode-relevant part of one connection: the frames extracted so
far (in order) and the pending buffer (`let buffer = ""`, line 54). -/
structure DecState where
  frames : List (List Char)
  buffer : List Char
deriving DecidableEq

/-- Append data to the buffer (line 86) and run the framing loop
(lines 91-192): the common tail of the `data` handler once the chunk to
process has been chosen. -/
def rawFeed (d : DecState) (data : List Char) : DecState :=
  let e := extractLoop (d.buffer ++ data)
  ⟨d.frames ++ e.1, e.2⟩

/-- One full round of the `data` handler (lines 58-193) for one received
chunk: hex-wrapper detection first, then buffering and framing. -/
def feedChunk (d : DecState) (chunk : List Char) : DecState :=
  rawFeed d (hexTransform chunk)

/-- The ordered sequence of frames produced by feeding the given chunks,
in order, to a fresh connection. -/
def decode (chunks : List (List Char)) : List (List Char) :=
  (chunks.foldl feedChunk ⟨[], []⟩).frames

theorem rawFeed_append (d : DecState) (x y : List Char) :
    rawFeed (rawFeed d x) y = rawFeed d (x ++ y) := by
  unfold rawFeed
  have h := extract_assoc (d.buffer ++ x) y
  rw [show d.buffer ++ (x ++ y) = (d.buffer ++ x) ++ y by simp, h]
  simp

theorem feedAll_cons :
    ∀ (cs : List (List Char)) (c : List Char) (d : DecState),
      (∀ x ∈ c :: cs, hexTransform x = x) →
      (c :: cs).foldl feedChunk d = rawFeed d ((c :: cs).flatten) := by
  intro cs
  induction cs with
  | nil =>
    intro c d h
    have hc := h c (by simp)
    simp [feedChunk, hc]
  | cons c2 cs2 ih =>
    intro c d h
    have hc := h c (by simp)
    have h2 : ∀ x ∈ c2 :: cs2, hexTransform x = x := fun x hx =>
      h x (by simp at hx ⊢; tauto)
    calc (c :: c2 :: cs2).foldl feedChunk d
        = (c2 :: cs2).foldl feedChunk (feedChunk d c) := by simp
      _ = rawFeed (feedChunk d c) ((c2 :: cs2).flatten) := ih c2 (feedChunk d c) h2
      _ = rawFeed (rawFeed d c) ((c2 :: cs2).flatten) := by rw [feedChunk, hc]
      _ = rawFeed d (c ++ (c2 :: cs2).flatten) := rawFeed_append _ _ _
      _ = rawFeed d ((c :: c2 :: cs2).flatten) := by simp

/-! ### Message parser (lines 106-111) -/

/-- JavaScript `message.split("*")` for the one-character separator. -/
def splitOnStar : List Char → List (List Char)
  | [] => [[]]
  | c :: rest =>
    if c = '*' then [] :: splitOnStar rest
    else
      match splitOnStar rest with
      | [] => [[c]]
      | g :: gs => (c :: g) :: gs

/-- JavaScript `parts.join("*")`. -/
def joinStar : List (List Char) → List Char
  | [] => []
  | [x] => x
  | x :: xs => x ++ '*' :: joinStar xs

/-- A parsed message (the four pieces read on lines 108-111). -/
structure Message where
  proto : List Char
  imei : List Char
  lenField : List Char
  body : List Char
deriving DecidableEq

/-- Lines 106-111: split the frame interior on `*`; with at least four
fields the message is `parts[0]`, `parts[1]`, `parts[2]` and
`parts.slice(3).join("*")`; otherwise the frame is malformed (line 186). -/
def parseMessage (f : List Char) : Option Message :=
  let parts := splitOnStar f
  if 4 ≤ parts.length then
    some ⟨parts.getD 0 [], parts.getD 1 [], parts.getD 2 [],
      joinStar (parts.drop 3)⟩
  else none

/-! ### Command dispatch (lines 113-188) -/

/-- Reply acknowledgement for `LK` (line 140). -/
def lkAck (imei : List Char) : List Char :=
  "[3G*".data ++ imei ++ "*0002*LK]".data

/-- Reply acknowledgement for `AL` (line 158). -/
def alAck (imei : List Char) : List Char :=
  "[3G*".data ++ imei ++ "*0002*AL]".data

/-- Reply acknowledgement for `CONFIG` (line 165). -/
def configAck (imei : List Char) : List Char :=
  "[3G*".data ++ imei ++ "*0008*CONFIG,1]".data

/-- The reply frames written by the dispatch branches, in source order:
`body.startsWith("LK")` (line 139), `body.startsWith("AL") ||
body.startsWith("AL_LTE")` (line 157), `body.startsWith("CONFIG")`
(line 164).  The `UD`/`UD2`/`TS`/`VERNO` branches only log. -/
def replyList (imei body : List Char) : List (List Char) :=
  (if "LK".data.isPrefixOf body then [lkAck imei] else [])
    ++ (if "AL".data.isPrefixOf body || "AL_LTE".data.isPrefixOf body then
          [alAck imei] else [])
    ++ (if "CONFIG".data.isPrefixOf body then [configAck imei] else [])

/-- The keyword list of line 183 (`["LK","UD","UD2","UD_LTE","UD_WCDMA",
"AL","AL_LTE","CONFIG","TS","VERNO"].some(c => body.startsWith(c))`). -/
def recognizedCmd (body : List Char) : Bool :=
  ["LK", "UD", "UD2", "UD_LTE", "UD_WCDMA", "AL", "AL_LTE", "CONFIG",
    "TS", "VERNO"].any (fun c => c.data.isPrefixOf body)

/-- Externally visible side effects of the connection handlers. -/
inductive Event where
  /-- `Device.findOneAndUpdate({imei}, {..., connected}, {upsert:true})`
  (lines 119-129). -/
  | upsert (imei addr : List Char) (connected : Bool) : Event
  /-- `socketsByImei.set(imei, socket)` (line 135). -/
  | registrySet (imei : List Char) (handle : Nat) : Event
  /-- `safeWrite(socket, resp)` of a reply frame. -/
  | reply (frame : List Char) : Event
  /-- `socketsByImei.delete(deviceImei)` (line 203). -/
  | registryDelete (imei : List Char) : Event
  /-- `Device.findOneAndUpdate({imei}, {connected: false})` (line 204). -/
  | dbSetDisconnected (imei : List Char) : Event
deriving DecidableEq

/-- Lines 117-185 for one well-formed message: unconditional record
upsert, unconditional registry overwrite, then the keyword branches. -/
def dispatch (addr : List Char) (handle : Nat) (m : Message) : List Event :=
  Event.upsert m.imei addr true :: Event.registrySet m.imei handle ::
    (replyList m.imei m.body).map Event.reply

/-- Lines 107-188 for one extracted frame: dispatch a well-formed message
(also remembering its IMEI in `deviceImei`, line 113); drop a malformed
one with no effects (lines 186-188). -/
def stepFrame (addr : List Char) (handle : Nat) (imei : Option (List Char))
    (f : List Char) : Option (List Char) × List Event :=
  match parseMessage f with
  | some m => (some m.imei, dispatch addr handle m)
  | none => (imei, [])

/-- Fold `stepFrame` over the frames extracted from one chunk. -/
def processFrames (addr : List Char) (handle : Nat) :
    Option (List Char) → List (List Char) → Option (List Char) × List Event
  | imei, [] => (imei, [])
  | imei, f :: fs =>
    let r := stepFrame addr handle imei f
    let r2 := processFrames addr handle r.1 fs
    (r2.1, r.2 ++ r2.2)

/-- The whole per-connection state: all frames extracted so far, the
pending buffer, and `deviceImei` (line 55, `null` until a well-formed
message is parsed). -/
structure ConnState where
  frames : List (List Char)
  buffer : List Char
  deviceImei : Option (List Char)
deriving DecidableEq

/-- One `data` event (lines 58-193): choose raw or hex-decoded chunk,
buffer it, extract every complete frame, and parse/dispatch each. -/
def onChunk (addr : List Char) (handle : Nat) (st : ConnState)
    (chunk : List Char) : ConnState × List Event :=
  let ex := extractLoop (st.buffer ++ hexTransform chunk)
  let pr := processFrames addr handle st.deviceImei ex.1
  (⟨st.frames ++ ex.1, ex.2, pr.1⟩, pr.2)

/-- A connection's life: fresh state (lines 54-55), then one `data` event
per received chunk, collecting all side effects in order. -/
def runConn (addr : List Char) (handle : Nat) (chunks : List (List Char)) :
    ConnState × List Event :=
  chunks.foldl
    (fun acc c =>
      let r := onChunk addr handle acc.1 c
      (r.1, acc.2 ++ r.2))
    (⟨[], [], none⟩, [])

/-- The `close` handler (lines 195-218): only when `deviceImei` is truthy
(a non-null, nonempty string) does it delete the registry entry and mark
the device disconnected; otherwise it only logs. -/
def onClose (st : ConnState) : List Event :=
  match st.deviceImei with
  | some i => if i = [] then [] else
      [Event.registryDelete i, Event.dbSetDisconnected i]
  | none => []

/-! ### Session registry (`socketsByImei`, line 24) -/

/-- The `imei -> socket` map, with sockets as abstract numeric handles. -/
def Registry : Type := List Char → Option Nat

/-- The empty map. -/
def emptyReg : Registry := fun _ => none

/-- How each event acts on the registry: `Map.set` overwrites
unconditionally, `Map.delete` removes unconditionally. -/
def applyEvent (r : Registry) : Event → Registry
  | Event.registrySet i h => fun k => if k = i then some h else r k
  | Event.registryDelete i => fun k => if k = i then none else r k
  | _ => r

/-- Apply a list of events to the registry, oldest first. -/
def applyEvents (r : Registry) (es : List Event) : Registry :=
  es.foldl applyEvent r

/-! ### Outbound frame construction -/

/-- Decimal digit printing with explicit fuel (the fuel makes the
recursion structural; `n` itself is always enough fuel because dividing
by 10 strictly decreases a positive number). -/
def natToDecGo : Nat → Nat → List Char
  | 0, _ => []
  | fuel + 1, n =>
    if n < 10 then [Char.ofNat ('0'.toNat + n)]
    else natToDecGo fuel (n / 10) ++ [Char.ofNat ('0'.toNat + n % 10)]

/-- `String(payload.length)`: decimal digits of a number, as JavaScript
prints it (no leading zeros, `0` for zero). -/
def natToDecChars (n : Nat) : List Char :=
  natToDecGo (n + 1) n

theorem natToDecGo_fuel :
    ∀ (f1 f2 n : Nat), n < f1 → n < f2 → natToDecGo f1 n = natToDecGo f2 n := by
  intro f1
  induction f1 with
  | zero => intro f2 n h1 _; omega
  | succ a ih =>
    intro f2 n h1 h2
    cases f2 with
    | zero => omega
    | succ b =>
      simp only [natToDecGo]
      by_cases hn : n < 10
      · simp [hn]
      · have hd : n / 10 < n := Nat.div_lt_self (by omega) (by omega)
        rw [if_neg hn, if_neg hn, ih b (n / 10) (by omega) (by omega)]

theorem natToDecChars_step {n : Nat} (h : ¬ n < 10) :
    natToDecChars n = natToDecChars (n / 10) ++ [Char.ofNat ('0'.toNat + n % 10)] := by
  have hd : n / 10 < n := Nat.div_lt_self (by omega) (by omega)
  unfold natToDecChars
  conv_lhs => rw [natToDecGo]
  rw [if_neg h]
  rw [natToDecGo_fuel n (n / 10 + 1) (n / 10) (by omega) (by omega)]

/-- `String.prototype.padStart(n, c)`. -/
def padStart (l : List Char) (n : Nat) (c : Char) : List Char :=
  List.replicate (n - l.length) c ++ l

/-- `buildLenField` (lines 27-30): decimal length, left-padded with `0`
to width 4. -/
def buildLenField (payload : List Char) : List Char :=
  padStart (natToDecChars payload.length) 4 '0'

/-- Decimal value of a digit string (specification-side reading of the
LEN field). -/
def decValue (l : List Char) : Nat :=
  l.foldl (fun a c => 10 * a + (c.toNat - '0'.toNat)) 0

/-- Modelled from the spec (section 4.5 Frame Encoder): emit
`[` + protocolTag + `*` + deviceId + `*` + declaredLength + `*` + body
+ `]`.  Used as the reference shape that the hard-coded template literals
of the source are compared against. -/
def encodeFrame (tag imei len body : List Char) : List Char :=
  ['['] ++ tag ++ ['*'] ++ imei ++ ['*'] ++ len ++ ['*'] ++ body ++ [']']

/-- The `/change-server` payload `IP,${newIp},${newPort}` (line 316). -/
def changeServerPayload (ip port : List Char) : List Char :=
  "IP,".data ++ ip ++ [','] ++ port

/-- The `/change-server` command frame (lines 316-318). -/
def changeServerCmd (imei ip port : List Char) : List Char :=
  "[3G*".data ++ imei ++ "*".data ++ buildLenField (changeServerPayload ip port)
    ++ "*".data ++ changeServerPayload ip port ++ "]".data

/-- The `/send-ts` command frame (line 341). -/
def tsCmd (imei : List Char) : List Char :=
  "[3G*".data ++ imei ++ "*0002*TS]".data

/-- The `/send-cr` command frame (line 364). -/
def crCmd (imei : List Char) : List Char :=
  "[3G*".data ++ imei ++ "*0002*CR]".data

/-! ### Helper lemmas: split/join -/

theorem splitOnStar_ne_nil : ∀ (l : List Char), splitOnStar l ≠ [] := by
  intro l
  cases l with
  | nil => simp [splitOnStar]
  | cons c rest =>
    by_cases hc : c = '*'
    · simp [splitOnStar, hc]
    · simp only [splitOnStar, if_neg hc]
      cases splitOnStar rest <;> simp

theorem joinStar_splitOnStar : ∀ (l : List Char), joinStar (splitOnStar l) = l := by
  intro l
  induction l with
  | nil => rfl
  | cons c rest ih =>
    by_cases hc : c = '*'
    · subst hc
      simp only [splitOnStar, if_pos rfl]
      cases hsp : splitOnStar rest with
      | nil => exact absurd hsp (splitOnStar_ne_nil rest)
      | cons g gs =>
        rw [hsp] at ih
        simpa [joinStar] using ih
    · simp only [splitOnStar, if_neg hc]
      cases hsp : splitOnStar rest with
      | nil => exact absurd hsp (splitOnStar_ne_nil rest)
      | cons g gs =>
        rw [hsp] at ih
        cases gs with
        | nil => simpa [joinStar] using ih
        | cons g2 gs2 => simpa [joinStar] using ih

theorem splitOnStar_sep :
    ∀ (p rest : List Char), '*' ∉ p →
      splitOnStar (p ++ '*' :: rest) = p :: splitOnStar rest := by
  intro p
  induction p with
  | nil => intro rest _; simp [splitOnStar]
  | cons c p2 ih =>
    intro rest hmem
    have hc : c ≠ '*' := by intro hc; exact hmem (by simp [hc])
    have hp2 : '*' ∉ p2 := fun h => hmem (by simp [h])
    simp only [List.cons_append, splitOnStar, if_neg hc, List.append_eq,
      ih rest hp2]

/-! ### Helper lemmas: prefixes -/

theorem isPrefixOf_iff_exists :
    ∀ (p l : List Char), p.isPrefixOf l = true ↔ ∃ t, p ++ t = l := by
  intro p
  induction p with
  | nil => intro l; simp [List.isPrefixOf]
  | cons c p2 ih =>
    intro l
    cases l with
    | nil => simp [List.isPrefixOf]
    | cons x xs =>
      simp only [List.isPrefixOf, Bool.and_eq_true, beq_iff_eq, ih xs,
        List.cons_append, List.cons.injEq]
      constructor
      · rintro ⟨hcx, t, ht⟩; exact ⟨t, hcx, ht⟩
      · rintro ⟨t, hcx, ht⟩; exact ⟨hcx, t, ht⟩

theorem prefix_head_eq {l : List Char} {a b : Char} {p q : List Char}
    (ha : (a :: p).isPrefixOf l = true) (hb : (b :: q).isPrefixOf l = true) :
    a = b := by
  cases l with
  | nil => simp [List.isPrefixOf] at ha
  | cons x xs =>
    simp only [List.isPrefixOf, Bool.and_eq_true, beq_iff_eq] at ha hb
    rw [ha.1, hb.1]

/-- Bodies starting with `AL_LTE` also start with `AL`, so the `||` on
line 157 collapses to the `AL` test. -/
theorem al_lte_imp_al {body : List Char}
    (h : "AL_LTE".data.isPrefixOf body = true) :
    "AL".data.isPrefixOf body = true := by
  rw [isPrefixOf_iff_exists] at h ⊢
  obtain ⟨t, ht⟩ := h
  exact ⟨"_LTE".data ++ t, by rw [← ht]; rfl⟩

theorem replyList_of_lk {imei body : List Char}
    (h : "LK".data.isPrefixOf body = true) :
    replyList imei body = [lkAck imei] := by
  have hal : "AL".data.isPrefixOf body = false := by
    by_contra hc
    have : "AL".data.isPrefixOf body = true := by
      cases hal : "AL".data.isPrefixOf body
      · exact absurd hal hc
      · rfl
    exact absurd (prefix_head_eq h this) (by decide)
  have hallte : "AL_LTE".data.isPrefixOf body = false := by
    by_contra hc
    have : "AL_LTE".data.isPrefixOf body = true := by
      cases hal : "AL_LTE".data.isPrefixOf body
      · exact absurd hal hc
      · rfl
    exact absurd (prefix_head_eq h this) (by decide)
  have hcfg : "CONFIG".data.isPrefixOf body = false := by
    by_contra hc
    have : "CONFIG".data.isPrefixOf body = true := by
      cases hal : "CONFIG".data.isPrefixOf body
      · exact absurd hal hc
      · rfl
    exact absurd (prefix_head_eq h this) (by decide)
  simp [replyList, h, hal, hallte, hcfg]

theorem replyList_of_al {imei body : List Char}
    (h : "AL".data.isPrefixOf body = true) :
    replyList imei body = [alAck imei] := by
  have hlk : "LK".data.isPrefixOf body = false := by
    by_contra hc
    have : "LK".data.isPrefixOf body = true := by
      cases hal : "LK".data.isPrefixOf body
      · exact absurd hal hc
      · rfl
    exact absurd (prefix_head_eq h this) (by decide)
  have hcfg : "CONFIG".data.isPrefixOf body = false := by
    by_contra hc
    have : "CONFIG".data.isPrefixOf body = true := by
      cases hal : "CONFIG".data.isPrefixOf body
      · exact absurd hal hc
      · rfl
    exact absurd (prefix_head_eq h this) (by decide)
  simp [replyList, h, hlk, hcfg]

theorem replyList_of_config {imei body : List Char}
    (h : "CONFIG".data.isPrefixOf body = true) :
    replyList imei body = [configAck imei] := by
  have hlk : "LK".data.isPrefixOf body = false := by
    by_contra hc
    have : "LK".data.isPrefixOf body = true := by
      cases hal : "LK".data.isPrefixOf body
      · exact absurd hal hc
      · rfl
    exact absurd (prefix_head_eq h this) (by decide)
  have hal : "AL".data.isPrefixOf body = false := by
    by_contra hc
    have : "AL".data.isPrefixOf body = true := by
      cases hal : "AL".data.isPrefixOf body
      · exact absurd hal hc
      · rfl
    exact absurd (prefix_head_eq h this) (by decide)
  have hallte : "AL_LTE".data.isPrefixOf body = false := by
    by_contra hc
    have : "AL_LTE".data.isPrefixOf body = true := by
      cases hal : "AL_LTE".data.isPrefixOf body
      · exact absurd hal hc
      · rfl
    exact absurd (prefix_head_eq h this) (by decide)
  simp [replyList, h, hlk, hal, hallte]

theorem replyList_of_none {imei body : List Char}
    (hlk : "LK".data.isPrefixOf body = false)
    (hal : "AL".data.isPrefixOf body = false)
    (hcfg : "CONFIG".data.isPrefixOf body = false) :
    replyList imei body = [] := by
  have hallte : "AL_LTE".data.isPrefixOf body = false := by
    by_contra hc
    have : "AL_LTE".data.isPrefixOf body = true := by
      cases h2 : "AL_LTE".data.isPrefixOf body
      · exact absurd h2 hc
      · rfl
    rw [al_lte_imp_al this] at hal
    cases hal
  simp [replyList, hlk, hal, hallte, hcfg]

/-- If a body starts with a keyword whose first character differs from
`L`, `A` and `C`, no reply branch fires. -/
theorem replyList_of_other_head {imei body : List Char} {a : Char} {p : List Char}
    (h : (a :: p).isPrefixOf body = true)
    (hL : a ≠ 'L') (hA : a ≠ 'A') (hC : a ≠ 'C') :
    replyList imei body = [] := by
  apply replyList_of_none
  · cases h2 : "LK".data.isPrefixOf body
    · rfl
    · exact absurd (prefix_head_eq h h2) hL
  · cases h2 : "AL".data.isPrefixOf body
    · rfl
    · exact absurd (prefix_head_eq h h2) hA
  · cases h2 : "CONFIG".data.isPrefixOf body
    · rfl
    · exact absurd (prefix_head_eq h h2) hC

/-! ### Helper lemmas: hex wrapper -/

/-- A chunk containing a `[` can never pass the hex test: `[` survives
whitespace stripping and is not a hex digit. -/
theorem isHexChunk_false_of_mem_lbrack {l : List Char} (h : '[' ∈ l) :
    isHexChunk l = false := by
  have hmem : '[' ∈ stripWs l :=
    List.mem_filter.mpr ⟨h, by decide⟩
  have hall : (stripWs l).all isHexDigit = false := by
    cases hcase : (stripWs l).all isHexDigit
    · rfl
    · exact absurd (List.all_eq_true.mp hcase '[' hmem) (by decide)
  simp [isHexChunk, hall]

theorem hexTransform_of_mem_lbrack {l : List Char} (h : '[' ∈ l) :
    hexTransform l = l := by
  simp [hexTransform, isHexChunk_false_of_mem_lbrack h]

/-! ### Helper lemmas: decimal printing -/

theorem natToDecChars_length_le :
    ∀ (k n : Nat), 1 ≤ k → n < 10 ^ k → (natToDecChars n).length ≤ k := by
  intro k
  induction k with
  | zero => intro n h; omega
  | succ a ih =>
    intro n _ hn
    by_cases h10 : n < 10
    · simp only [natToDecChars, natToDecGo, if_pos h10]
      simp
    · have ha : 1 ≤ a := by
        by_contra hc
        have : a = 0 := by omega
        subst this
        simp at hn
        omega
      have hdiv : n / 10 < 10 ^ a := by
        rw [Nat.div_lt_iff_lt_mul (by omega)]
        calc n < 10 ^ (a + 1) := hn
          _ = 10 ^ a * 10 := by ring
      have := ih (n / 10) ha hdiv
      rw [natToDecChars_step h10]
      simp
      omega

theorem decValue_append_digit (l : List Char) (c : Char) :
    decValue (l ++ [c]) = 10 * decValue l + (c.toNat - '0'.toNat) := by
  simp [decValue, List.foldl_append]

theorem char_ofNat_digit_toNat {d : Nat} (h : d < 10) :
    (Char.ofNat ('0'.toNat + d)).toNat = '0'.toNat + d := by
  interval_cases d <;> decide

theorem decValue_natToDecChars : ∀ (n : Nat), decValue (natToDecChars n) = n := by
  intro n
  induction n using Nat.strong_induction_on with
  | _ n ih =>
    by_cases h10 : n < 10
    · simp only [natToDecChars, natToDecGo, if_pos h10, decValue, List.foldl]
      rw [char_ofNat_digit_toNat h10]
      omega
    · have hd : n / 10 < n := Nat.div_lt_self (by omega) (by omega)
      rw [natToDecChars_step h10, decValue_append_digit, ih (n / 10) hd,
        char_ofNat_digit_toNat (Nat.mod_lt n (by omega))]
      omega

theorem decValue_pad_zeros (k : Nat) (l : List Char) :
    decValue (List.replicate k '0' ++ l) = decValue l := by
  induction k with
  | zero => simp
  | succ a ih =>
    simp only [List.replicate, List.cons_append]
    simpa [decValue] using ih

/-! ### Helper lemmas: the connection run -/

theorem processFrames_imei_of_malformed (addr : List Char) (handle : Nat) :
    ∀ (fs : List (List Char)) (imei : Option (List Char)),
      (∀ f ∈ fs, parseMessage f = none) →
      (processFrames addr handle imei fs).1 = imei := by
  intro fs
  induction fs with
  | nil => intro imei _; rfl
  | cons f fs2 ih =>
    intro imei h
    have hf : parseMessage f = none := h f (by simp)
    have h2 : ∀ g ∈ fs2, parseMessage g = none := fun g hg => h g (by simp [hg])
    simp only [processFrames, stepFrame, hf]
    exact ih imei h2

/-- The `frames` history only grows along a run. -/
theorem runConn_frames_mono (addr : List Char) (handle : Nat) :
    ∀ (chunks : List (List Char)) (st : ConnState) (evs : List Event),
      ∃ t, st.frames ++ t =
        (chunks.foldl
          (fun acc c =>
            let r := onChunk addr handle acc.1 c
            (r.1, acc.2 ++ r.2))
          (st, evs)).1.frames := by
  intro chunks
  induction chunks with
  | nil => intro st evs; exact ⟨[], by simp⟩
  | cons c cs ih =>
    intro st evs
    obtain ⟨t, ht⟩ := ih (onChunk addr handle st c).1
      (evs ++ (onChunk addr handle st c).2)
    refine ⟨(extractLoop (st.buffer ++ hexTransform c)).1 ++ t, ?_⟩
    simp only [List.foldl_cons]
    rw [← ht]
    simp [onChunk]

theorem runConn_imei_none (addr : List Char) (handle : Nat) :
    ∀ (chunks : List (List Char)) (st : ConnState) (evs : List Event),
      st.deviceImei = none →
      (∀ f ∈ (chunks.foldl
          (fun acc c =>
            let r := onChunk addr handle acc.1 c
            (r.1, acc.2 ++ r.2))
          (st, evs)).1.frames, parseMessage f = none) →
      (chunks.foldl
          (fun acc c =>
            let r := onChunk addr handle acc.1 c
            (r.1, acc.2 ++ r.2))
          (st, evs)).1.deviceImei = none := by
  intro chunks
  induction chunks with
  | nil => intro st evs him _; simpa using him
  | cons c cs ih =>
    intro st evs him hall
    simp only [List.foldl_cons] at hall ⊢
    apply ih (onChunk addr handle st c).1 (evs ++ (onChunk addr handle st c).2)
    · -- the state after this chunk still has no identified IMEI
      obtain ⟨t, ht⟩ := runConn_frames_mono addr handle cs
        (onChunk addr handle st c).1 (evs ++ (onChunk addr handle st c).2)
      have hnewmal : ∀ f ∈ (extractLoop (st.buffer ++ hexTransform c)).1,
          parseMessage f = none := by
        intro f hf
        apply hall
        rw [← ht]
        simp only [onChunk]
        simp [hf]
      simp only [onChunk]
      rw [him]
      exact processFrames_imei_of_malformed addr handle _ none hnewmal
    · exact hall

/-! ### Event classifiers -/

/-- Is the event an outbound reply write? -/
def isReplyEv : Event → Bool
  | Event.reply _ => true
  | _ => false

/-- Is the event a registry `set`? -/
def isRegistrySetEv : Event → Bool
  | Event.registrySet _ _ => true
  | _ => false

/-- Is the event a record-sink upsert? -/
def isUpsertEv : Event → Bool
  | Event.upsert _ _ _ => true
  | _ => false

theorem replyList_length_le_one (imei body : List Char) :
    (replyList imei body).length ≤ 1 := by
  cases hlk : "LK".data.isPrefixOf body
  · cases hal : "AL".data.isPrefixOf body
    · cases hcfg : "CONFIG".data.isPrefixOf body
      · rw [replyList_of_none hlk hal hcfg]; simp
      · rw [replyList_of_config hcfg]; simp
    · rw [replyList_of_al hal]; simp
  · rw [replyList_of_lk hlk]; simp

/-! ## The claims -/

/-- C1: the claim says removal on connection close is conditional (a
no-op when the stored handle for the device belongs to a different
connection), so after A sets `D`, B overwrites `D`, and A closes, `D`
must stay bound to B's handle.  The code (line 203) deletes
unconditionally: running the scenario leaves no entry for `D` at all —
B's binding `some 2` is evicted by A's close. -/
theorem c1_close_unconditionally_evicts :
    (let rA := runConn "1.1.1.1:100".data 1 ["[3G*D*0009*LK,0,0,21]".data]
     let rB := runConn "2.2.2.2:200".data 2 ["[3G*D*0009*LK,0,0,21]".data]
     let regBefore := applyEvents (applyEvents emptyReg rA.2) rB.2
     let regAfter := applyEvents regBefore (onClose rA.1)
     regBefore "D".data = some 2 ∧ regAfter "D".data = none) := by
  decide

/-- C2 counterexample: the hex encoding of `[3G*1*0002*LK]` fed whole is
detected as hex and yields one frame, but split after three characters
both pieces have odd hex length, are buffered raw, and yield no frame —
so chunking at that byte boundary changes the extracted frame sequence. -/
theorem c2_hex_split_changes_frames :
    decode ["5B3".data, "3472A312A303030322A4C4B5D".data] ≠
      decode ["5B33472A312A303030322A4C4B5D".data] := by
  decide

/-- C2 (amended): the buffering/framing loop itself is invariant under
splitting the byte stream at any boundaries; the per-chunk hex-wrapper
detection is what breaks full invariance, so the equality holds whenever
the hex step rewrites neither any individual chunk nor the whole stream. -/
theorem c2_chunking_invariant_without_hex (chunks : List (List Char))
    (hc : ∀ c ∈ chunks, hexTransform c = c)
    (hw : hexTransform chunks.flatten = chunks.flatten) :
    decode chunks = decode [chunks.flatten] := by
  cases chunks with
  | nil => rfl
  | cons c cs =>
    unfold decode
    rw [feedAll_cons cs c ⟨[], []⟩ hc]
    simp only [List.foldl_cons, List.foldl_nil, feedChunk, hw]

theorem c2_chunking_invariant_without_hex_witness :
    decode ["[3G*1*".data, "0009*LK,0,0,21]".data] =
      decode [(["[3G*1*".data, "0009*LK,0,0,21]".data] :
        List (List Char)).flatten] :=
  c2_chunking_invariant_without_hex ["[3G*1*".data, "0009*LK,0,0,21]".data]
    (by decide) (by decide)

/-- C3: a body with prefix `LK` gets exactly the LK acknowledgement; a
prefix `AL` or `AL_LTE` gets exactly the AL acknowledgement; a prefix
`CONFIG` gets exactly the CONFIG acknowledgement; prefixes `UD`, `UD2`,
`UD_LTE`, `UD_WCDMA`, `TS`, `VERNO` and unrecognized keywords get no
reply. -/
theorem c3_reply_per_keyword (imei body : List Char) :
    ("LK".data.isPrefixOf body = true → replyList imei body = [lkAck imei]) ∧
    ("AL".data.isPrefixOf body = true ∨ "AL_LTE".data.isPrefixOf body = true →
      replyList imei body = [alAck imei]) ∧
    ("CONFIG".data.isPrefixOf body = true →
      replyList imei body = [configAck imei]) ∧
    ("UD".data.isPrefixOf body = true ∨ "UD2".data.isPrefixOf body = true ∨
      "UD_LTE".data.isPrefixOf body = true ∨
      "UD_WCDMA".data.isPrefixOf body = true ∨
      "TS".data.isPrefixOf body = true ∨ "VERNO".data.isPrefixOf body = true ∨
      recognizedCmd body = false →
      replyList imei body = []) := by
  refine ⟨fun h => replyList_of_lk h, ?_, fun h => replyList_of_config h, ?_⟩
  · rintro (h | h)
    · exact replyList_of_al h
    · exact replyList_of_al (al_lte_imp_al h)
  · rintro (h | h | h | h | h | h | h)
    · exact replyList_of_other_head
        (show ('U' :: "D".data).isPrefixOf body = true from h)
        (by decide) (by decide) (by decide)
    · exact replyList_of_other_head
        (show ('U' :: "D2".data).isPrefixOf body = true from h)
        (by decide) (by decide) (by decide)
    · exact replyList_of_other_head
        (show ('U' :: "D_LTE".data).isPrefixOf body = true from h)
        (by decide) (by decide) (by decide)
    · exact replyList_of_other_head
        (show ('U' :: "D_WCDMA".data).isPrefixOf body = true from h)
        (by decide) (by decide) (by decide)
    · exact replyList_of_other_head
        (show ('T' :: "S".data).isPrefixOf body = true from h)
        (by decide) (by decide) (by decide)
    · exact replyList_of_other_head
        (show ('V' :: "ERNO".data).isPrefixOf body = true from h)
        (by decide) (by decide) (by decide)
    · have hlk : "LK".data.isPrefixOf body = false := by
        cases hx : "LK".data.isPrefixOf body
        · rfl
        · have : recognizedCmd body = true := by simp [recognizedCmd, hx]
          rw [h] at this; cases this
      have hal : "AL".data.isPrefixOf body = false := by
        cases hx : "AL".data.isPrefixOf body
        · rfl
        · have : recognizedCmd body = true := by simp [recognizedCmd, hx]
          rw [h] at this; cases this
      have hcfg : "CONFIG".data.isPrefixOf body = false := by
        cases hx : "CONFIG".data.isPrefixOf body
        · rfl
        · have : recognizedCmd body = true := by simp [recognizedCmd, hx]
          rw [h] at this; cases this
      exact replyList_of_none hlk hal hcfg

theorem c3_reply_per_keyword_witness :
    replyList "9".data "LK,0,0,21".data = [lkAck "9".data] ∧
    replyList "9".data "AL".data = [alAck "9".data] ∧
    replyList "9".data "AL_LTE,1".data = [alAck "9".data] ∧
    replyList "9".data "CONFIG".data = [configAck "9".data] ∧
    replyList "9".data "UD,1,2".data = [] ∧
    replyList "9".data "WHAT,1".data = [] :=
  ⟨(c3_reply_per_keyword "9".data "LK,0,0,21".data).1 (by decide),
   (c3_reply_per_keyword "9".data "AL".data).2.1 (Or.inl (by decide)),
   (c3_reply_per_keyword "9".data "AL_LTE,1".data).2.1 (Or.inr (by decide)),
   (c3_reply_per_keyword "9".data "CONFIG".data).2.2.1 (by decide),
   (c3_reply_per_keyword "9".data "UD,1,2".data).2.2.2 (Or.inl (by decide)),
   (c3_reply_per_keyword "9".data "WHAT,1".data).2.2.2
     (Or.inr (Or.inr (Or.inr (Or.inr (Or.inr (Or.inr (by decide)))))))⟩

/-- C4: with at least four `*`-separated fields the parser yields the
message whose `deviceId` is field 2 and whose body rejoins fields 4..n
with `*` (so `*` characters inside the body survive verbatim, third
conjunct); with fewer than four fields the frame is dropped: parse
fails and the dispatch step produces no state change and no events. -/
theorem c4_parser_fields (f : List Char) :
    (4 ≤ (splitOnStar f).length →
      parseMessage f = some ⟨(splitOnStar f).getD 0 [], (splitOnStar f).getD 1 [],
        (splitOnStar f).getD 2 [], joinStar ((splitOnStar f).drop 3)⟩) ∧
    ((splitOnStar f).length < 4 →
      parseMessage f = none ∧
      ∀ (addr : List Char) (handle : Nat) (imei : Option (List Char)),
        stepFrame addr handle imei f = (imei, [])) ∧
    (∀ (p i l b : List Char), '*' ∉ p → '*' ∉ i → '*' ∉ l →
      parseMessage (p ++ '*' :: (i ++ '*' :: (l ++ '*' :: b))) =
        some ⟨p, i, l, b⟩) := by
  refine ⟨?_, ?_, ?_⟩
  · intro h4
    simp [parseMessage, h4]
  · intro h4
    have hnone : parseMessage f = none := by
      simp [parseMessage, show ¬ 4 ≤ (splitOnStar f).length by omega]
    exact ⟨hnone, fun addr handle imei => by simp [stepFrame, hnone]⟩
  · intro p i l b hp hi hl
    have hsplit : splitOnStar (p ++ '*' :: (i ++ '*' :: (l ++ '*' :: b))) =
        p :: i :: l :: splitOnStar b := by
      rw [splitOnStar_sep p _ hp, splitOnStar_sep i _ hi, splitOnStar_sep l _ hl]
    have hpos : 0 < (splitOnStar b).length :=
      List.length_pos.mpr (splitOnStar_ne_nil b)
    simp only [parseMessage, hsplit]
    rw [if_pos (by simp; omega)]
    simp [joinStar_splitOnStar]

theorem c4_parser_fields_witness :
    parseMessage "3G*123*0009*LK,0,0,21".data =
      some ⟨"3G".data, "123".data, "0009".data, "LK,0,0,21".data⟩ ∧
    (parseMessage "no-stars-here".data = none ∧
      ∀ (addr : List Char) (handle : Nat) (imei : Option (List Char)),
        stepFrame addr handle imei "no-stars-here".data = (imei, [])) ∧
    parseMessage ("3G".data ++ '*' :: ("77".data ++ '*' ::
        ("0006".data ++ '*' :: "UD,a*b".data))) =
      some ⟨"3G".data, "77".data, "0006".data, "UD,a*b".data⟩ :=
  ⟨by
    have h := (c4_parser_fields "3G*123*0009*LK,0,0,21".data).1 (by decide)
    rw [h]; decide,
   (c4_parser_fields "no-stars-here".data).2.1 (by decide),
   (c4_parser_fields "x".data).2.2 "3G".data "77".data "0006".data "UD,a*b".data
     (by decide) (by decide) (by decide)⟩

/-- C5: for every well-formed message, the dispatch step records the
IMEI, and its event list starts with exactly the unconditional record
upsert (carrying the remote address and connected status) followed by
the unconditional registry overwrite with this connection's handle;
everything after those two is a reply write. -/
theorem c5_unconditional_effects (addr : List Char) (handle : Nat)
    (imei0 : Option (List Char)) (f : List Char) (m : Message)
    (hp : parseMessage f = some m) :
    (stepFrame addr handle imei0 f).1 = some m.imei ∧
    (stepFrame addr handle imei0 f).2.take 2 =
      [Event.upsert m.imei addr true, Event.registrySet m.imei handle] ∧
    ∀ e ∈ (stepFrame addr handle imei0 f).2.drop 2, ∃ fr, e = Event.reply fr := by
  refine ⟨by simp [stepFrame, hp], by simp [stepFrame, hp, dispatch], ?_⟩
  intro e he
  simp only [stepFrame, hp, dispatch, List.drop_succ_cons, List.drop_zero] at he
  obtain ⟨fr, _, hfr⟩ := List.mem_map.mp he
  exact ⟨fr, hfr.symm⟩

theorem c5_unconditional_effects_witness :
    (stepFrame "8.8.8.8:77".data 5 none "3G*42*0006*UD,1,2".data).1 =
      some "42".data ∧
    (stepFrame "8.8.8.8:77".data 5 none "3G*42*0006*UD,1,2".data).2.take 2 =
      [Event.upsert "42".data "8.8.8.8:77".data true,
        Event.registrySet "42".data 5] ∧
    ∀ e ∈ (stepFrame "8.8.8.8:77".data 5 none "3G*42*0006*UD,1,2".data).2.drop 2,
      ∃ fr, e = Event.reply fr :=
  c5_unconditional_effects "8.8.8.8:77".data 5 none "3G*42*0006*UD,1,2".data
    ⟨"3G".data, "42".data, "0006".data, "UD,1,2".data⟩ (by decide)

/-- C6: one dispatch step emits at most one reply, exactly one registry
write and exactly one record upsert, even though the keyword branches
are tested independently. -/
theorem c6_single_effects (addr : List Char) (handle : Nat) (m : Message) :
    ((dispatch addr handle m).countP (fun e => isReplyEv e) ≤ 1) ∧
    ((dispatch addr handle m).countP (fun e => isRegistrySetEv e) = 1) ∧
    ((dispatch addr handle m).countP (fun e => isUpsertEv e) = 1) := by
  have hrep : ∀ l : List (List Char),
      (l.map Event.reply).countP (fun e => isReplyEv e) = l.length := by
    intro l
    induction l with
    | nil => rfl
    | cons x xs ih => simp [List.countP_cons, isReplyEv, ih]
  have hset : ∀ l : List (List Char),
      (l.map Event.reply).countP (fun e => isRegistrySetEv e) = 0 := by
    intro l
    induction l with
    | nil => rfl
    | cons x xs ih => simp [List.countP_cons, isRegistrySetEv, ih]
  have hup : ∀ l : List (List Char),
      (l.map Event.reply).countP (fun e => isUpsertEv e) = 0 := by
    intro l
    induction l with
    | nil => rfl
    | cons x xs ih => simp [List.countP_cons, isUpsertEv, ih]
  have hlen := replyList_length_le_one m.imei m.body
  refine ⟨?_, ?_, ?_⟩
  · simp only [dispatch, List.countP_cons, hrep]
    simp [isReplyEv]
    omega
  · simp only [dispatch, List.countP_cons, hset]
    simp [isRegistrySetEv]
  · simp only [dispatch, List.countP_cons, hup]
    simp [isUpsertEv]

/-- C7: a chunk whose whitespace-stripped text is a nonempty even-length
run of hex digits, and whose hex decoding contains both markers, is
framed exactly as if the decoded text had been received directly; every
other chunk — including hex-looking chunks whose decoding lacks a
marker — is appended raw. -/
theorem c7_hex_wrapper (d : DecState) (chunk : List Char) :
    (isHexChunk chunk = true →
      ((decodeHex (stripWs chunk)).contains '[' &&
        (decodeHex (stripWs chunk)).contains ']') = true →
      feedChunk d chunk = feedChunk d (decodeHex (stripWs chunk))) ∧
    (isHexChunk chunk = false ∨
      ((decodeHex (stripWs chunk)).contains '[' &&
        (decodeHex (stripWs chunk)).contains ']') = false →
      feedChunk d chunk = rawFeed d chunk) := by
  constructor
  · intro hhex hmark
    have h1 : hexTransform chunk = decodeHex (stripWs chunk) := by
      unfold hexTransform
      rw [if_pos hhex, if_pos hmark]
    have hlb : '[' ∈ decodeHex (stripWs chunk) := by
      have hc := ((Bool.and_eq_true _ _).mp hmark).1
      simpa [List.contains] using hc
    have h2 : hexTransform (decodeHex (stripWs chunk)) =
        decodeHex (stripWs chunk) := hexTransform_of_mem_lbrack hlb
    rw [feedChunk, feedChunk, h1, h2]
  · intro h
    have h1 : hexTransform chunk = chunk := by
      rcases h with h | h
      · have hne : isHexChunk chunk ≠ true := by rw [h]; decide
        unfold hexTransform
        rw [if_neg hne]
      · cases hhex : isHexChunk chunk
        · have hne : isHexChunk chunk ≠ true := by rw [hhex]; decide
          unfold hexTransform
          rw [if_neg hne]
        · have hne : ((decodeHex (stripWs chunk)).contains '[' &&
              (decodeHex (stripWs chunk)).contains ']') ≠ true := by
            rw [h]; decide
          unfold hexTransform
          rw [if_pos hhex, if_neg hne]
    rw [feedChunk, h1]

theorem c7_hex_wrapper_witness :
    feedChunk ⟨[], []⟩ "5B33472A312A303030322A4C4B5D".data =
      feedChunk ⟨[], []⟩
        (decodeHex (stripWs "5B33472A312A303030322A4C4B5D".data)) ∧
    feedChunk ⟨[], []⟩ "CAFE".data = rawFeed ⟨[], []⟩ "CAFE".data :=
  ⟨(c7_hex_wrapper ⟨[], []⟩ "5B33472A312A303030322A4C4B5D".data).1
      (by decide) (by decide),
   (c7_hex_wrapper ⟨[], []⟩ "CAFE".data).2 (Or.inr (by decide))⟩

/-- C8 counterexample: the claim asserts the payload `IP,1.2.3.4,9000`
has 14 bytes and yields `0014`; it actually has 15 characters and
`buildLenField` yields `0015`. -/
theorem c8_second_example_false :
    ¬ (("IP,1.2.3.4,9000".data).length = 14 ∧
       buildLenField "IP,1.2.3.4,9000".data = "0014".data) := by
  decide

/-- C8 (amended): for bodies of length at most 9999 the LEN field is the
decimal length left-padded with `0` to exactly width 4; the examples are
`IP,148.230.83.171,6808` (22 bytes) → `0022` and `IP,1.2.3.4,9000`
(15 bytes, not 14) → `0015`. -/
theorem c8_len_field :
    (∀ payload : List Char, payload.length ≤ 9999 →
      (buildLenField payload).length = 4 ∧
      decValue (buildLenField payload) = payload.length) ∧
    buildLenField "IP,148.230.83.171,6808".data = "0022".data ∧
    buildLenField "IP,1.2.3.4,9000".data = "0015".data := by
  refine ⟨?_, by decide, by decide⟩
  intro payload hlen
  have hlt : payload.length < 10 ^ 4 := by
    have : (10 : Nat) ^ 4 = 10000 := by norm_num
    omega
  have hlen4 := natToDecChars_length_le 4 payload.length (by omega) hlt
  constructor
  · simp only [buildLenField, padStart, List.length_append,
      List.length_replicate]
    omega
  · rw [buildLenField, padStart, decValue_pad_zeros, decValue_natToDecChars]

theorem c8_len_field_witness :
    (buildLenField "LK".data).length = 4 ∧
    decValue (buildLenField "LK".data) = ("LK".data).length :=
  c8_len_field.1 "LK".data (by decide)

/-- C9 counterexample: an inbound `LK` message with protocol tag `CS`
triggers the reply `[3G*9*0002*LK]`, not the `CS`-tagged frame the claim
requires. -/
theorem c9_reply_tag_not_echoed :
    parseMessage "CS*9*0009*LK,0,0,21".data =
      some ⟨"CS".data, "9".data, "0009".data, "LK,0,0,21".data⟩ ∧
    replyList "9".data "LK,0,0,21".data = ["[3G*9*0002*LK]".data] ∧
    "[3G*9*0002*LK]".data ≠
      encodeFrame "CS".data "9".data "0002".data "LK".data := by
  decide

/-- C9 (amended): every server-originated frame — dispatcher reply or
operator-initiated command — carries the fixed protocol tag `3G`,
regardless of the tag of the inbound message; it matches the device's
tag only when the device itself uses `3G`. -/
theorem c9_fixed_tag :
    (∀ imei body fr, fr ∈ replyList imei body →
      fr = encodeFrame "3G".data imei "0002".data "LK".data ∨
      fr = encodeFrame "3G".data imei "0002".data "AL".data ∨
      fr = encodeFrame "3G".data imei "0008".data "CONFIG,1".data) ∧
    (∀ imei ip port, changeServerCmd imei ip port =
      encodeFrame "3G".data imei (buildLenField (changeServerPayload ip port))
        (changeServerPayload ip port)) ∧
    (∀ imei, tsCmd imei = encodeFrame "3G".data imei "0002".data "TS".data) ∧
    (∀ imei, crCmd imei = encodeFrame "3G".data imei "0002".data "CR".data) := by
  refine ⟨?_, ?_, ?_, ?_⟩
  · intro imei body fr hfr
    unfold replyList at hfr
    rcases List.mem_append.mp hfr with h | h
    · rcases List.mem_append.mp h with h | h
      · split at h
        · left
          simp only [List.mem_singleton] at h
          rw [h]
          simp [lkAck, encodeFrame]
        · cases h
      · split at h
        · right; left
          simp only [List.mem_singleton] at h
          rw [h]
          simp [alAck, encodeFrame]
        · cases h
    · split at h
      · right; right
        simp only [List.mem_singleton] at h
        rw [h]
        simp [configAck, encodeFrame]
      · cases h
  · intro imei ip port
    simp [changeServerCmd, encodeFrame]
  · intro imei
    simp [tsCmd, encodeFrame]
  · intro imei
    simp [crCmd, encodeFrame]

theorem c9_fixed_tag_witness :
    lkAck "7".data = encodeFrame "3G".data "7".data "0002".data "LK".data ∨
    lkAck "7".data = encodeFrame "3G".data "7".data "0002".data "AL".data ∨
    lkAck "7".data = encodeFrame "3G".data "7".data "0008".data "CONFIG,1".data :=
  c9_fixed_tag.1 "7".data "LK".data (lkAck "7".data) (by decide)

/-- C10: a connection on which every extracted frame was malformed (so
no well-formed message was ever parsed) still has `deviceImei = none`,
and its close handler performs no registry removal and no device-record
write. -/
theorem c10_close_noop_without_imei (addr : List Char) (handle : Nat)
    (chunks : List (List Char))
    (hmal : ∀ f ∈ (runConn addr handle chunks).1.frames, parseMessage f = none) :
    (runConn addr handle chunks).1.deviceImei = none ∧
    onClose (runConn addr handle chunks).1 = [] := by
  unfold runConn at hmal ⊢
  have h := runConn_imei_none addr handle chunks ⟨[], [], none⟩ [] rfl hmal
  exact ⟨h, by simp [onClose, h]⟩

theorem c10_close_noop_without_imei_witness :
    (runConn "4.4.4.4:9".data 3 ["[garbage]".data, "noise".data]).1.deviceImei =
      none ∧
    onClose (runConn "4.4.4.4:9".data 3 ["[garbage]".data, "noise".data]).1 =
      [] :=
  c10_close_noop_without_imei "4.4.4.4:9".data 3
    ["[garbage]".data, "noise".data] (by decide)

end GpsV3
